import Mathlib

/-!
Verification of `aribhls` (src/aribhls.mts): a shallow embedding of the
dialogue timestamp codec, the dialogue line parser and serializer, the
gap-filling dialogue queue, the per-line input correction pass, the segment
rotation and playlist-window logic, and the startup playlist reconstruction,
together with theorems settling claims C1-C10.  JavaScript numbers occurring
in the program are modelled by `JSNum` (integer-valued floats plus NaN,
Infinity and -Infinity); JavaScript strings are modelled as `List Char`.
-/

/-- JavaScript number values reachable in the program: integer-valued
floats, NaN and the two infinities.  All arithmetic in the source stays
integral, so no other float values arise. -/
inductive JSNum where
  | num (v : Int)
  | nan
  | inf
  | negInf
deriving DecidableEq, Repr

namespace JSNum

/-- JavaScript `+` on the values of `JSNum`. -/
def jsAdd : JSNum → JSNum → JSNum
  | num a, num b => num (a + b)
  | nan, _ => nan
  | _, nan => nan
  | inf, negInf => nan
  | negInf, inf => nan
  | inf, _ => inf
  | _, inf => inf
  | negInf, _ => negInf
  | _, negInf => negInf

/-- JavaScript unary minus. -/
def jsNeg : JSNum → JSNum
  | num a => num (-a)
  | nan => nan
  | inf => negInf
  | negInf => inf

/-- JavaScript binary `-`. -/
def jsSub (a b : JSNum) : JSNum := jsAdd a (jsNeg b)

/-- JavaScript `*` on the values of `JSNum`. -/
def jsMul : JSNum → JSNum → JSNum
  | nan, _ => nan
  | _, nan => nan
  | num a, num b => num (a * b)
  | inf, num b => if 0 < b then inf else if b < 0 then negInf else nan
  | num a, inf => if 0 < a then inf else if a < 0 then negInf else nan
  | negInf, num b => if 0 < b then negInf else if b < 0 then inf else nan
  | num a, negInf => if 0 < a then negInf else if a < 0 then inf else nan
  | inf, inf => inf
  | negInf, negInf => inf
  | inf, negInf => negInf
  | negInf, inf => negInf

/-- JavaScript `<` (false whenever NaN is involved). -/
def jsLtB : JSNum → JSNum → Bool
  | nan, _ => false
  | _, nan => false
  | num a, num b => decide (a < b)
  | inf, inf => false
  | negInf, negInf => false
  | negInf, _ => true
  | _, inf => true
  | inf, _ => false
  | _, negInf => false

/-- JavaScript `>`. -/
def jsGtB (a b : JSNum) : Bool := jsLtB b a

/-- JavaScript `==` on numbers (NaN compares unequal to everything). -/
def jsEqB : JSNum → JSNum → Bool
  | num a, num b => decide (a = b)
  | inf, inf => true
  | negInf, negInf => true
  | _, _ => false

/-- JavaScript truthiness of a number: `0` and NaN are falsy. -/
def jsTruthy : JSNum → Bool
  | num a => decide (a ≠ 0)
  | nan => false
  | inf => true
  | negInf => true

end JSNum

/-- A JavaScript string literal as a character list. -/
def jstr (s : String) : List Char := s.toList

/-- Helper for `String.prototype.indexOf`: scan a suffix, carrying the
absolute index of its first character; `-1` when absent. -/
def indexOfAux (c : Char) : List Char → Nat → Int
  | [], _ => -1
  | x :: rest, i => if x = c then (i : Int) else indexOfAux c rest (i + 1)

/-- JavaScript `s.indexOf(c, start)` (for `start ≥ 0`). -/
def indexOfFrom (s : List Char) (c : Char) (start : Nat) : Int :=
  indexOfAux c (List.drop start s) start

/-- JavaScript `s.substring(a, b)`: both ends clamped into `[0, length]`,
then swapped if out of order. -/
def jsSubstring (s : List Char) (a b : Int) : List Char :=
  let len : Int := (s.length : Int)
  let a' := min (max a 0) len
  let b' := min (max b 0) len
  List.drop (min a' b').toNat (List.take (max a' b').toNat s)

/-- JavaScript `s.substring(a)` (no end argument). -/
def jsSubstringFrom (s : List Char) (a : Int) : List Char :=
  List.drop (min (max a 0) (s.length : Int)).toNat s

/-- Helper for `String.prototype.split` with a single-character separator:
`acc` is the current chunk, reversed. -/
def splitAux (sep : Char) : List Char → List Char → List (List Char)
  | [], acc => [acc.reverse]
  | x :: rest, acc =>
    if x = sep then acc.reverse :: splitAux sep rest []
    else splitAux sep rest (x :: acc)

/-- JavaScript `s.split(sep, limit)`: split fully, keep the first
`limit` chunks. -/
def jsSplit (s : List Char) (sep : Char) (limit : Nat) : List (List Char) :=
  List.take limit (splitAux sep s [])

/-- JavaScript `s.padEnd(n, c)`. -/
def jsPadEnd (s : List Char) (n : Nat) (c : Char) : List Char :=
  s ++ List.replicate (n - s.length) c

/-- JavaScript `s.padStart(n, c)`. -/
def jsPadStart (s : List Char) (n : Nat) (c : Char) : List Char :=
  List.replicate (n - s.length) c ++ s

/-- Decimal digit character. -/
def jsDigitChar : Nat → Char
  | 0 => '0'
  | 1 => '1'
  | 2 => '2'
  | 3 => '3'
  | 4 => '4'
  | 5 => '5'
  | 6 => '6'
  | 7 => '7'
  | 8 => '8'
  | 9 => '9'
  | _ + 10 => '*'

/-- Digit accumulator for `natToChars`; the fuel is structural so that the
kernel can evaluate it (`n + 1` units always suffice since `n / 10 < n` for
`n ≥ 10`). -/
def natToCharsAux : Nat → Nat → List Char → List Char
  | 0, _, acc => acc
  | fuel + 1, n, acc =>
    if n < 10 then jsDigitChar n :: acc
    else natToCharsAux fuel (n / 10) (jsDigitChar (n % 10) :: acc)

/-- JavaScript `Number.prototype.toString()` for a nonnegative integer. -/
def natToChars (n : Nat) : List Char :=
  natToCharsAux (n + 1) n []

/-- Numeric value of a decimal digit character, if it is one. -/
def digitVal? (c : Char) : Option Nat :=
  if 48 ≤ c.toNat ∧ c.toNat ≤ 57 then some (c.toNat - 48) else none

/-- Value of an all-digit character list (`some 0` on the empty list;
emptiness is handled by the caller). -/
def digitsVal? (l : List Char) : Option Nat :=
  l.foldl
    (fun acc c =>
      match acc, digitVal? c with
      | some a, some d => some (a * 10 + d)
      | _, _ => none)
    (some 0)

/-- JavaScript `Number(string)` on the string shapes this program feeds it:
the empty string converts to `0`, an optional `-` followed by decimal digits
converts to the signed value, and anything else occurring here (strings
containing `:`, letters, ...) converts to NaN.  (Whitespace, hex and
exponent forms never occur in the program's inputs and are not modelled.) -/
def jsNumberOfChars (s : List Char) : JSNum :=
  if s = [] then .num 0
  else
    let neg : Bool := s.head? == some '-'
    let rest := if neg then s.drop 1 else s
    if rest = [] then .nan
    else
      match digitsVal? rest with
      | some v => .num (if neg then -(v : Int) else (v : Int))
      | none => .nan

/-- JavaScript `Number(x)` where `x` is a string or `undefined`. -/
def jsNumberOpt : Option (List Char) → JSNum
  | none => .nan
  | some s => jsNumberOfChars s

/-- `ARIB_INFINITY` from src/aribhls.mts line 7: a finite number. -/
def ARIB_INFINITY : Int := 35999990

/-- One parsed dialogue record (class `AssDialogue`): the raw string
attributes as assigned by the constructor (most recent assignment first,
as looked up by `List.lookup`), with the two numeric fields `Start` and
`End` that the constructor overwrites with parsed values.  The `format`
member is carried by every call site separately and is not needed by any
modelled method, so it is not stored. -/
structure AssDialogue where
  raw : List (String × List Char)
  Start : JSNum
  End : JSNum
deriving DecidableEq, Repr

namespace AssDialogue

/-- `AssDialogue.parseTSString` (src/aribhls.mts lines 70-78).  The thrown
`TypeError` (reading a property of `undefined` when the string has no `.`)
is modelled as `Except.error`. -/
def parseTSString (str : List Char) : Except String JSNum :=
  if str = jstr "9:59:59.99" then .ok .inf
  else
    let negative : Bool := str.head? == some '-'
    let rest := if negative then str.drop 1 else str
    match jsSplit rest '.' 2 with
    | [time, ms] =>
      let tp := jsSplit time ':' 3
      let hours := jsNumberOpt tp[0]?
      let minutes := jsNumberOpt tp[1]?
      let seconds := jsNumberOpt tp[2]?
      let msv := jsNumberOfChars (jsPadEnd (List.take 3 ms) 3 '0')
      .ok (JSNum.jsMul (if negative then JSNum.num (-1) else JSNum.num 1)
        (JSNum.jsAdd
          (JSNum.jsAdd
            (JSNum.jsAdd (JSNum.jsMul hours (JSNum.num 3600000))
              (JSNum.jsMul minutes (JSNum.num 60000)))
            (JSNum.jsMul seconds (JSNum.num 1000)))
          msv))
    | _ => .error "TypeError"

/-- `AssDialogue.toASSTSString` (src/aribhls.mts lines 84-88) on a finite
value.  All `~~` truncations act on nonnegative quantities here, so they
are floor divisions. -/
def toASSTSString (time : Int) : List Char :=
  let sign : List Char := if time < 0 then jstr "-" else []
  let abstime : Nat := time.natAbs
  let hh := jsPadStart (natToChars (abstime / 3600000)) 1 '0'
  let mm := jsPadStart (natToChars (abstime % 3600000 / 60000)) 2 '0'
  let ss := jsPadStart (natToChars (abstime % 60000 / 1000)) 2 '0'
  let ff := jsPadEnd (List.take 2 (natToChars (abstime % 1000))) 2 '0'
  sign ++ hh ++ ':' :: mm ++ ':' :: ss ++ '.' :: ff

/-- `toASSTSString` on a general JavaScript number: `~~` maps NaN and the
infinities to `0`, so they format as the zero timestamp (with the sign of
`-Infinity` kept). -/
def toASSTSStringJS : JSNum → List Char
  | .num v => toASSTSString v
  | .nan => toASSTSString 0
  | .inf => toASSTSString 0
  | .negInf => '-' :: toASSTSString 0

end AssDialogue

/-- `format[idx]` as a JavaScript object key: reading past the end gives
`undefined`, which stringifies to the key `"undefined"`. -/
def jsKey (format : List String) (idx : Nat) : String :=
  (format[idx]?).getD "undefined"

/-- The field-splitting `while(1)` loop of the `AssDialogue` constructor
(src/aribhls.mts lines 28-39).  `pos` is the index of the separator before
the next field (initially 9, the index of the space after `Dialogue:`);
assignments are prepended, so `List.lookup` sees the most recent one first,
like a JavaScript object.  The fuel is structural so the kernel can
evaluate the definition; each iteration moves `pos` strictly forward, so
`str.length + 1` units always suffice for the initial `pos = 9`. -/
def parseLoop (str : List Char) (format : List String) :
    Nat → Nat → Nat → List (String × List Char) → List (String × List Char)
  | 0, _, _, acc => acc
  | fuel + 1, idx, pos, acc =>
    let prev : Nat := pos + 1
    let pos' : Int :=
      if (idx : Int) = (format.length : Int) - 1 then -1
      else indexOfFrom str ',' prev
    let value :=
      if pos' = -1 then jsSubstringFrom str (prev : Int)
      else jsSubstring str (prev : Int) pos'
    let acc' := (jsKey format idx, value) :: acc
    if pos' = -1 then acc'
    else parseLoop str format fuel (idx + 1) pos'.toNat acc'

/-- Second half of the `AssDialogue` constructor (src/aribhls.mts lines
40-44): overwrite `Start` with `parseTSString(attribs.Start)` and `End`
with `attribs.End ? parseTSString(attribs.End) : Infinity`.  A missing
`Start` field makes `parseTSString(undefined)` throw (`undefined[0]`),
modelled as `Except.error`; a missing or empty `End` field is falsy and
yields `Infinity`. -/
def mkFromAttribs (attribs : List (String × List Char)) :
    Except String AssDialogue :=
  match attribs.lookup "Start" with
  | none => .error "TypeError"
  | some s =>
    match AssDialogue.parseTSString s with
    | .error e => .error e
    | .ok st =>
      match attribs.lookup "End" with
      | none => .ok ⟨attribs, st, .inf⟩
      | some en =>
        if en = [] then .ok ⟨attribs, st, .inf⟩
        else
          match AssDialogue.parseTSString en with
          | .error e => .error e
          | .ok env => .ok ⟨attribs, st, env⟩

/-- The `AssDialogue` constructor, assembled: split, then parse the two
timestamp fields. -/
def mkAssDialogue (str : List Char) (format : List String) :
    Except String AssDialogue :=
  mkFromAttribs (parseLoop str format (str.length + 1) 0 9 [])

/-- Remove every occurrence of `pat` from a string, left to right and
non-overlapping: JavaScript `replace(/pat/g, "")` for a literal pattern.
Fuel-structural; `s.length + 1` units suffice for a nonempty pattern. -/
def replaceAllAux (pat : List Char) : Nat → List Char → List Char
  | 0, s => s
  | fuel + 1, s =>
    match s with
    | [] => []
    | c :: rest =>
      if pat.isPrefixOf s then replaceAllAux pat fuel (s.drop pat.length)
      else c :: replaceAllAux pat fuel rest

/-- The text-payload cleanup in `AssDialogue.toString`: strip every
occurrence of the literal opaque-color override tag (regex
`/\x7b\\3a&Hff&\x7d/g` in the source). -/
def stripOverride (s : List Char) : List Char :=
  replaceAllAux (jstr "\x7b\\3a&Hff&\x7d") (s.length + 1) s

/-- JavaScript `x || ""` for a string-or-undefined attribute. -/
def orEmpty (o : Option (List Char)) : List Char := o.getD []

/-- A JavaScript template literal `${x}` for a string-or-undefined
attribute: `undefined` stringifies to `"undefined"`. -/
def undefOr (o : Option (List Char)) : List Char := o.getD (jstr "undefined")

/-- `AssDialogue.toString` (src/aribhls.mts lines 62-64).  `Text` being
`undefined` makes `.replace` throw, modelled as `Except.error`; an `End`
strictly equal to `Infinity` prints as the empty field. -/
def AssDialogue.toLine (d : AssDialogue) : Except String (List Char) :=
  match d.raw.lookup "Text" with
  | none => .error "TypeError"
  | some txt =>
    .ok (jstr "Dialogue: "
      ++ orEmpty (d.raw.lookup "Layer")
      ++ ',' :: AssDialogue.toASSTSStringJS d.Start
      ++ ',' :: (if d.End = .inf then [] else AssDialogue.toASSTSStringJS d.End)
      ++ ',' :: undefOr (d.raw.lookup "Style")
      ++ ',' :: undefOr (d.raw.lookup "Name")
      ++ ',' :: orEmpty (d.raw.lookup "MarginL")
      ++ ',' :: orEmpty (d.raw.lookup "MarginR")
      ++ ',' :: orEmpty (d.raw.lookup "MarginV")
      ++ ',' :: undefOr (d.raw.lookup "Effect")
      ++ ',' :: stripOverride txt)

/-- The standard ten-name event format declared by the upstream header
(`Format: Layer, Start, End, Style, Name, MarginL, MarginR, MarginV,
Effect, Text`), the field order that `AssDialogue.toString` hardcodes. -/
def stdFormat : List String :=
  ["Layer", "Start", "End", "Style", "Name",
   "MarginL", "MarginR", "MarginV", "Effect", "Text"]

/-- `AssDialogue.offsetStart` (src/aribhls.mts lines 52-55). -/
def AssDialogue.offsetStart (d : AssDialogue) (ms : Int) : AssDialogue :=
  {d with Start := JSNum.jsAdd d.Start (JSNum.num ms)}

/-- `AssDialogue.offsetEnd` (src/aribhls.mts lines 57-60): the addition is
unconditional; only the absorbing arithmetic of `Infinity` leaves an open
end unchanged. -/
def AssDialogue.offsetEnd (d : AssDialogue) (ms : Int) : AssDialogue :=
  {d with End := JSNum.jsAdd d.End (JSNum.num ms)}

/-- `AssDialogue.offset` (src/aribhls.mts lines 48-50). -/
def AssDialogue.offset (d : AssDialogue) (ms : Int) : AssDialogue :=
  (d.offsetStart ms).offsetEnd ms

/-- Concrete open-ended record used by several witnesses. -/
def qd1 : AssDialogue := ⟨[("Text", jstr "abc")], JSNum.num 100, JSNum.inf⟩

/-- Concrete closed record used by several witnesses. -/
def qd2 : AssDialogue :=
  ⟨[("Text", jstr "de")], JSNum.num 2000, JSNum.num 3000⟩

/-- The `last_time` state of the input correction pass (src/aribhls.mts
lines 406-409). -/
structure LastTime where
  Start : JSNum
  End : JSNum
deriving DecidableEq, Repr

/-- The ten-hour-rollover start correction (src/aribhls.mts lines
414-416). -/
def correctStart (last : LastTime) (row : AssDialogue) : AssDialogue :=
  if JSNum.jsGtB last.Start row.Start then
    {row with Start := JSNum.jsAdd row.Start (JSNum.num 36000000)}
  else row

/-- The ten-hour-rollover end correction (src/aribhls.mts lines
417-419). -/
def correctEnd (last : LastTime) (row : AssDialogue) : AssDialogue :=
  if JSNum.jsGtB last.End row.End then
    {row with End := JSNum.jsAdd row.End (JSNum.num 36000000)}
  else row

/-- The elision of the literal Default style (src/aribhls.mts lines 421-424),
modelled as the JavaScript property assignment `attribs.Style = ""`
(a prepended binding shadows the old one under `List.lookup`). -/
def elideDefaultStyle (row : AssDialogue) : AssDialogue :=
  if row.raw.lookup "Style" == some (jstr "Default") then
    {row with raw := ("Style", []) :: row.raw}
  else row

/-- The whole per-line correction pass of the `rl.on` line handler
(src/aribhls.mts lines 410-433, omitting the I/O and timer statements):
corrects the row, and updates `last_time` — the start baseline always,
the end baseline only when the corrected end is not `Infinity`. -/
def lineStep (last : LastTime) (row : AssDialogue) : AssDialogue × LastTime :=
  let row3 := elideDefaultStyle (correctEnd last (correctStart last row))
  (row3,
    ⟨row3.Start,
      if !(JSNum.jsEqB row3.End JSNum.inf) then row3.End else last.End⟩)

/-- First concrete record of the claimed rollover scenario: start
35999000 ms. -/
def r1C3 : AssDialogue := ⟨[("Text", jstr "a")], JSNum.num 35999000, JSNum.inf⟩

/-- Second concrete record of the claimed rollover scenario: start
100 ms. -/
def r2C3 : AssDialogue := ⟨[("Text", jstr "b")], JSNum.num 100, JSNum.inf⟩

/-- One playlist entry of the in-memory sliding window (the `playlist`
array, src/aribhls.mts line 179).  The program-date-time is a JavaScript
`Date`, kept here as its epoch-milliseconds value. -/
structure Segment where
  name : List Char
  date : Int
  duration : JSNum
  discontinuity : Bool
deriving DecidableEq, Repr

/-- The eviction loop of `write_segment` (src/aribhls.mts lines 356-362):
`for(let i = 0; i < playlist.length - opts.hls_list_size; i++)` with a
`shift()` and `seq++` per iteration.  The bound is re-evaluated against
the shrinking array every iteration.  On the empty list the JavaScript
loop also performs no further shift (for `hls_list_size ≥ 0` the condition
is immediately false), so both give `([], seq)`. -/
def evictLoop (size : Nat) : Nat → Int → List Segment → List Segment × Int
  | _, seq, [] => ([], seq)
  | i, seq, p :: rest =>
    if (i : Int) < ((p :: rest).length : Int) - (size : Int) then
      evictLoop size (i + 1) (seq + 1) rest
    else (p :: rest, seq)

/-- One rotation of the playlist window (the window bookkeeping of
`write_segment`, src/aribhls.mts lines 349-362): append the new segment,
then run the eviction loop from `i = 0`. -/
def rotateStep (size : Nat) (pl : List Segment) (seq : Int) (s : Segment) :
    List Segment × Int :=
  evictLoop size 0 seq (pl ++ [s])

/-- A concrete segment for the C6 counterexample. -/
def sA : Segment := ⟨jstr "20260101-000000.ass", 0, JSNum.num 2000, false⟩

/-- The duration computation of `write_segment` (src/aribhls.mts line
330): `(events[events.length-1].attribs.Start - events[0].attribs.Start)
|| opts.hls_time * 1000`; the `||` falls back whenever the difference is
falsy, i.e. 0 or NaN.  `write_segment` returns before this line when
`events` is empty, so the empty case (which would throw in JavaScript) is
given the unreachable default NaN. -/
def computeDuration (events : List AssDialogue) (hls_time : Int) : JSNum :=
  match events.head?, events.getLast? with
  | some f, some l =>
    let d := JSNum.jsSub l.Start f.Start
    if JSNum.jsTruthy d then d else JSNum.num (hls_time * 1000)
  | _, _ => JSNum.nan

/-- Concrete record with start 5000 for the C7 counterexample. -/
def e1C7 : AssDialogue := ⟨[("Text", jstr "a")], JSNum.num 5000, JSNum.inf⟩

/-- Concrete record with the same start 5000 and a closed end. -/
def e2C7 : AssDialogue :=
  ⟨[("Text", jstr "b")], JSNum.num 5000, JSNum.num 6000⟩

/-- One reconstructed playlist entry (src/aribhls.mts lines 265-270).
The program-date-time `Date` object is modelled by the string it was
constructed from. -/
structure RSeg where
  name : List Char
  date : List Char
  duration : JSNum
  discontinuity : Bool
deriving DecidableEq, Repr

/-- Running state of the playlist reconstruction loop (src/aribhls.mts
lines 216-273): the sequence counter, the window built so far, and the
three pending per-segment variables (`duration`, `program_date_time`,
`discontinuity`), each `undefined` initially and reset after a segment is
accepted. -/
structure RState where
  seq : JSNum
  playlist : List RSeg
  dur? : Option JSNum
  pdt? : Option (List Char)
  disc? : Bool
deriving DecidableEq, Repr

/-- Processing of one playlist line during startup reconstruction
(src/aribhls.mts lines 227-273).  Tag lines update the pending state
(note the media-sequence and EXTINF values are read with
`substring(..., line.length - 1)`, dropping the line's last character);
a non-tag line is a segment URI, accepted only when both a pending
program-date-time and a truthy pending duration exist.  The `TypeError`
thrown when an `#EXTINF` line has no `.` (reading `parts[1]`) is modelled
as `Except.error`. -/
def reconLine (st : RState) (line : List Char) : Except String RState :=
  if line.head? = some '#' then
    let tagName :=
      if indexOfFrom line ':' 0 = -1 then line
      else jsSubstring line 0 (indexOfFrom line ':' 0)
    if tagName = jstr "#EXT-X-MEDIA-SEQUENCE" then
      let v := jsNumberOfChars (jsSubstring line ((tagName.length : Int) + 1)
        ((line.length : Int) - 1))
      .ok {st with seq := v}
    else if tagName = jstr "#EXTM3U" ∨ tagName = jstr "#EXT-X-VERSION"
        ∨ tagName = jstr "#EXT-X-MEDIA"
        ∨ tagName = jstr "#EXT-X-TARGETDURATION"
        ∨ tagName = jstr "#EXT-X-MAP" then
      .ok st
    else if tagName = jstr "#EXT-X-DISCONTINUITY" then
      .ok {st with disc? := true}
    else if tagName = jstr "#EXTINF" then
      match jsSplit (jsSubstring line 8 ((line.length : Int) - 1)) '.' 2 with
      | [p0, p1] =>
        let v := JSNum.jsAdd (jsNumberOfChars (jsPadEnd (List.take 3 p1) 3 '0'))
          (JSNum.jsMul (jsNumberOfChars p0) (JSNum.num 1000))
        .ok {st with dur? := some v}
      | _ => .error "TypeError"
    else if tagName = jstr "#EXT-X-PROGRAM-DATE-TIME" then
      .ok {st with pdt? := some (jsSubstringFrom line 25)}
    else
      .ok st
  else
    match st.pdt?, st.dur? with
    | some pdt, some dur =>
      if JSNum.jsTruthy dur then
        .ok {st with
          playlist := st.playlist ++ [⟨line, pdt, dur, st.disc?⟩],
          dur? := none, pdt? := none, disc? := false}
      else .ok st
    | _, _ => .ok st

/-- The whole reconstruction pass over the existing playlist's lines. -/
def reconstruct : List (List Char) → RState → Except String RState
  | [], st => .ok st
  | l :: rest, st =>
    match reconLine st l with
    | .error e => .error e
    | .ok st' => reconstruct rest st'

/-- The reconstruction state at startup (`seq = 0`, empty window, no
pending values; src/aribhls.mts lines 179-181 and 225-226). -/
def initialRState : RState := ⟨JSNum.num 0, [], none, none, false⟩

/-- The well-formed existing playlist of the C1 restart scenario:
media-sequence 7 and three complete segment entries. -/
def c1Lines : List (List Char) :=
  [jstr "#EXTM3U",
   jstr "#EXT-X-VERSION:6",
   jstr "#EXT-X-TARGETDURATION:2",
   jstr "#EXT-X-MEDIA-SEQUENCE:7",
   jstr "#EXT-X-INDEPENDENT-SEGMENTS",
   jstr "#EXT-X-MAP:URI=\"init.ass\"",
   jstr "#EXTINF:2.000000,",
   jstr "#EXT-X-PROGRAM-DATE-TIME:2026-01-01T00:00:00.000+0000",
   jstr "seg1.ass",
   jstr "#EXTINF:3.000000,",
   jstr "#EXT-X-PROGRAM-DATE-TIME:2026-01-01T00:00:02.000+0000",
   jstr "seg2.ass",
   jstr "#EXTINF:2.500000,",
   jstr "#EXT-X-PROGRAM-DATE-TIME:2026-01-01T00:00:05.000+0000",
   jstr "seg3.ass"]

/-- Truthiness of `attribs.Text` as used by the queue: present and
nonempty. -/
def textTruthy (d : AssDialogue) : Bool :=
  match d.raw.lookup "Text" with
  | some t => t != []
  | none => false

namespace AssDialogueQueue

/-- The closing loop of `AssDialogueQueue.push` (src/aribhls.mts lines
111-118): shift items off the queue, closing each against the incoming
start and collecting it into `buf`, until the queue is empty or an item
with the same start is found (which is unshifted back).  Returns
(`buf`, remaining queue). -/
def pushLoop (newStart : JSNum) :
    List AssDialogue → List AssDialogue × List AssDialogue
  | [] => ([], [])
  | item :: rest =>
    if JSNum.jsEqB item.Start newStart then ([], item :: rest)
    else
      let p := pushLoop newStart rest
      ({item with End := newStart} :: p.1, p.2)

/-- `AssDialogueQueue.push` (src/aribhls.mts lines 109-130), on the queue
state `q`: returns (returned batch, new queue). -/
def push (q : List AssDialogue) (ni : AssDialogue) :
    List AssDialogue × List AssDialogue :=
  let p := pushLoop ni.Start q
  if !(JSNum.jsEqB ni.End JSNum.inf) then
    (if textTruthy ni then p.1 ++ [ni] else p.1, p.2)
  else
    (p.1, if textTruthy ni then p.2 ++ [ni] else p.2)

/-- `AssDialogueQueue.flush` (src/aribhls.mts lines 132-141) with
`_maxDuration = m`. -/
def flush (m : Int) : List AssDialogue → List AssDialogue
  | [] => []
  | item :: rest =>
    (if JSNum.jsEqB item.End JSNum.inf then
      {item with End := JSNum.jsAdd item.Start (JSNum.num m)}
    else item) :: flush m rest

end AssDialogueQueue

/-- Feed a list of records into the queue one `push` at a time, starting
from queue state `q`; returns (concatenation of all returned batches,
final queue state). -/
def runPush (q : List AssDialogue) :
    List AssDialogue → List AssDialogue × List AssDialogue
  | [] => ([], q)
  | x :: xs =>
    let p := AssDialogueQueue.push q x
    let r := runPush p.2 xs
    (p.1 ++ r.1, r.2)

/-- A full queue session: feed all inputs, then `flush`.  Returns every
record the queue ever emitted, in emission order. -/
def runQueue (inputs : List AssDialogue) (m : Int) : List AssDialogue :=
  (runPush [] inputs).1 ++ AssDialogueQueue.flush m (runPush [] inputs).2

/-- A record's identity apart from its (mutable) end: used to state that
no record is emitted twice. -/
def eraseEnd (d : AssDialogue) : List (String × List Char) × JSNum :=
  (d.raw, d.Start)

/-- Data-model validity of an input record: a finite start, and an end
that is either the open sentinel or finite. -/
def validD (d : AssDialogue) : Prop :=
  (∃ a, d.Start = JSNum.num a) ∧ (d.End = JSNum.inf ∨ ∃ b, d.End = JSNum.num b)

/-- Invariant of records parked in the queue: open-ended, nonempty text,
finite start. -/
def openD (d : AssDialogue) : Prop :=
  d.End = JSNum.inf ∧ textTruthy d = true ∧ ∃ a, d.Start = JSNum.num a

/-- The decimal digit characters. -/
def decDigits : List Char := jstr "0123456789"

/-- Join chunks with commas: the shape of the field region of a
serialized dialogue line. -/
def joinComma : List (List Char) → List Char
  | [] => []
  | [c] => c
  | c :: rest => c ++ ',' :: joinComma rest

/-- The ten comma-separated chunks that `AssDialogue.toString` emits for a
record with an open end (the `End` chunk is empty). -/
def dialogueChunks (d : AssDialogue) (txt : List Char) : List (List Char) :=
  [orEmpty (d.raw.lookup "Layer"),
   AssDialogue.toASSTSStringJS d.Start,
   [],
   undefOr (d.raw.lookup "Style"),
   undefOr (d.raw.lookup "Name"),
   orEmpty (d.raw.lookup "MarginL"),
   orEmpty (d.raw.lookup "MarginR"),
   orEmpty (d.raw.lookup "MarginV"),
   undefOr (d.raw.lookup "Effect"),
   stripOverride txt]

/-- Concrete open-ended record with all ten raw fields for the C10
witness. -/
def dC10 : AssDialogue :=
  ⟨[("Layer", jstr "0"), ("Style", []), ("Name", []),
    ("MarginL", jstr "0"), ("MarginR", jstr "0"), ("MarginV", jstr "0"),
    ("Effect", []), ("Text", jstr "hello")],
   JSNum.num 61000, JSNum.inf⟩

/-- C2: the claimed round-trip `parseTSString (toASSTSString t) = t` fails at
the centisecond-aligned failing input `t = 10` ms: the formatter renders it
as `0:00:00.10` (the millisecond remainder's digit string is taken without
zero-padding it to three digits), which the parser reads back as 100 ms. -/
theorem claim_C2_roundtrip_failing_input :
    AssDialogue.toASSTSString 10 = jstr "0:00:00.10"
    ∧ AssDialogue.parseTSString (AssDialogue.toASSTSString 10) =
        .ok (JSNum.num 100)
    ∧ JSNum.num 100 ≠ JSNum.num 10 := by
  refine ⟨by decide, rfl, by decide⟩

/-- The only failure `parseTSString` can produce is the modelled thrown
`TypeError` (no format-error value exists). -/
lemma parseTSString_error_eq (s : List Char) (e : String)
    (h : AssDialogue.parseTSString s = .error e) : e = "TypeError" := by
  unfold AssDialogue.parseTSString at h
  split at h
  · exact absurd h (by simp)
  · dsimp only at h
    split at h
    · exact absurd h (by simp)
    · injection h with h
      exact h.symm

/-- The only failure the whole constructor can produce is the modelled
thrown `TypeError`. -/
lemma mkFromAttribs_error_eq (attribs : List (String × List Char))
    (e : String) (h : mkFromAttribs attribs = .error e) : e = "TypeError" := by
  unfold mkFromAttribs at h
  split at h
  · injection h with h
    exact h.symm
  · rename_i s _
    split at h
    · rename_i e' heq
      injection h with h
      exact h ▸ parseTSString_error_eq s e' heq
    · split at h
      · exact absurd h (by simp)
      · split at h
        · exact absurd h (by simp)
        · rename_i en _ _
          split at h
          · rename_i e' heq
            injection h with h
            exact h ▸ parseTSString_error_eq en e' heq
          · exact absurd h (by simp)

/-- C9 counterexample: a dialogue line with only two of the ten declared
fields does not fail with a format error; the constructor silently builds a
record (the missing `End` even becomes the open sentinel `Infinity`). -/
theorem claim_C9_counterexample :
    mkAssDialogue (jstr "Dialogue: 0,1:02:03.04") stdFormat =
      .ok ⟨[("Start", jstr "1:02:03.04"), ("Layer", jstr "0")],
        JSNum.num 3723040, JSNum.inf⟩ := by
  rfl

/-- C9 amended: parsing a dialogue line with fewer fields than declared
silently constructs a record with the missing trailing fields absent; a
non-numeric timestamp component that still contains a `.` silently yields a
NaN timestamp; only a timestamp whose fractional part is missing throws
(a crash, modelled as `Except.error "TypeError"`), and a thrown `TypeError`
is the sole possible failure — no format-error result is ever produced. -/
theorem claim_C9_amended :
    (∀ str format e, mkAssDialogue str format = .error e → e = "TypeError")
    ∧ (∃ d, mkAssDialogue (jstr "Dialogue: 0,1:02:03.04") stdFormat = .ok d
        ∧ d.End = JSNum.inf)
    ∧ (∃ d, mkAssDialogue
          (jstr "Dialogue: 0,0:00:aa.00,0:00:02.00,,,0,0,0,,hello") stdFormat
          = .ok d ∧ d.Start = JSNum.nan)
    ∧ mkAssDialogue (jstr "Dialogue: 0,abc,0:00:02.00,,,0,0,0,,hello")
        stdFormat = .error "TypeError" := by
  refine ⟨fun str format e h => mkFromAttribs_error_eq _ e h,
    ⟨_, rfl, rfl⟩, ⟨_, rfl, rfl⟩, rfl⟩

/-- Witness for C9's amended theorem: its universally quantified conjunct
applied at a concrete erroring input. -/
theorem claim_C9_amended_witness : "TypeError" = "TypeError" :=
  claim_C9_amended.1 (jstr "Dialogue: 0,abc,,,,,,,,x") stdFormat
    "TypeError" (by rfl)

/-- C8 counterexample: a record whose end equals the finite legacy
constant `ARIB_INFINITY` (35999990) is *not* left unchanged by a shift —
`offset` adds the delta to it like to any finite end, so the claimed
second non-shiftable sentinel convention does not exist in the code. -/
theorem claim_C8_counterexample :
    (AssDialogue.offset
        ⟨[("Text", jstr "x")], JSNum.num 0, JSNum.num ARIB_INFINITY⟩
        1000).End = JSNum.num 36000990
    ∧ JSNum.num 36000990 ≠ JSNum.num ARIB_INFINITY := by
  exact ⟨rfl, by decide⟩

/-- C8 amended: `offset` adds the delta to `Start`, and adds it to `End`
as well unless `End` is the open sentinel `Infinity`, which absorbs the
addition and stays open; a finite end — including one equal to
`ARIB_INFINITY` — is always shifted. -/
theorem claim_C8_amended (d : AssDialogue) (ms : Int) :
    (d.offset ms).Start = JSNum.jsAdd d.Start (JSNum.num ms)
    ∧ (d.End = JSNum.inf → (d.offset ms).End = JSNum.inf)
    ∧ (∀ b, d.End = JSNum.num b → (d.offset ms).End = JSNum.num (b + ms)) := by
  refine ⟨by cases d; rfl, ?_, ?_⟩
  · intro h
    show JSNum.jsAdd d.End (JSNum.num ms) = JSNum.inf
    rw [h]
    rfl
  · intro b h
    show JSNum.jsAdd d.End (JSNum.num ms) = JSNum.num (b + ms)
    rw [h]
    rfl

/-- Witness for C8's amended theorem, at an open-ended and a closed
concrete record. -/
theorem claim_C8_amended_witness :
    (qd1.offset 7).End = JSNum.inf
    ∧ (qd2.offset 7).End = JSNum.num 3007
    ∧ (qd2.offset 7).Start = JSNum.jsAdd qd2.Start (JSNum.num 7) :=
  ⟨(claim_C8_amended qd1 7).2.1 rfl, (claim_C8_amended qd2 7).2.2 3000 rfl,
    (claim_C8_amended qd2 7).1⟩

/-- `Infinity` is never strictly less than anything. -/
lemma jsLtB_inf_left (x : JSNum) : JSNum.jsLtB JSNum.inf x = false := by
  cases x <;> rfl

/-- Style elision does not touch the numeric fields. -/
lemma elideDefaultStyle_Start (r : AssDialogue) :
    (elideDefaultStyle r).Start = r.Start := by
  unfold elideDefaultStyle
  split <;> rfl

/-- Style elision does not touch the numeric fields. -/
lemma elideDefaultStyle_End (r : AssDialogue) :
    (elideDefaultStyle r).End = r.End := by
  unfold elideDefaultStyle
  split <;> rfl

/-- The end correction does not touch the start. -/
lemma correctEnd_Start (last : LastTime) (r : AssDialogue) :
    (correctEnd last r).Start = r.Start := by
  unfold correctEnd
  split <;> rfl

/-- The start correction does not touch the end. -/
lemma correctStart_End (last : LastTime) (r : AssDialogue) :
    (correctStart last r).End = r.End := by
  unfold correctStart
  split <;> rfl

/-- Characterization of the start correction on finite values. -/
lemma correctStart_eq (last : LastTime) (row : AssDialogue) (a b : Int)
    (hS : last.Start = JSNum.num a) (hrS : row.Start = JSNum.num b) :
    (correctStart last row).Start
      = JSNum.num (if b < a then b + 36000000 else b) := by
  unfold correctStart
  rw [hS]
  by_cases hba : b < a
  · rw [if_pos (by simp [JSNum.jsGtB, JSNum.jsLtB, hrS, hba]), if_pos hba]
    show JSNum.jsAdd row.Start (JSNum.num 36000000) = _
    rw [hrS]
    rfl
  · rw [if_neg (by simp [JSNum.jsGtB, JSNum.jsLtB, hrS, hba]), if_neg hba]
    exact hrS

/-- An open end is never corrected (nothing compares above `Infinity`). -/
lemma correctEnd_of_inf (last : LastTime) (row : AssDialogue)
    (hE : row.End = JSNum.inf) : correctEnd last row = row := by
  unfold correctEnd
  rw [if_neg]
  show ¬JSNum.jsGtB last.End row.End = true
  rw [hE]
  show ¬JSNum.jsLtB JSNum.inf last.End = true
  rw [jsLtB_inf_left]
  simp

/-- Characterization of the end correction on finite values. -/
lemma correctEnd_eq (last : LastTime) (row : AssDialogue) (e c : Int)
    (hE : last.End = JSNum.num e) (hrE : row.End = JSNum.num c) :
    (correctEnd last row).End
      = JSNum.num (if c < e then c + 36000000 else c) := by
  unfold correctEnd
  rw [hE]
  by_cases hce : c < e
  · rw [if_pos (by simp [JSNum.jsGtB, JSNum.jsLtB, hrE, hce]), if_pos hce]
    show JSNum.jsAdd row.End (JSNum.num 36000000) = _
    rw [hrE]
    rfl
  · rw [if_neg (by simp [JSNum.jsGtB, JSNum.jsLtB, hrE, hce]), if_neg hce]
    exact hrE

/-- C3: in the per-line correction pass, a start (resp. end) numerically
below the tracked baseline gains exactly 10 hours (36000000 ms); the two
baselines are independent — the start baseline becomes the corrected
start, and the end baseline is updated only when the corrected end is not
the open sentinel; an open end is never corrected and leaves the end
baseline unchanged.  On the start sequence [35999000, 100] the second
start is corrected to 36000100. -/
theorem claim_C3_rollover (last : LastTime) (row : AssDialogue) (a b : Int)
    (hS : last.Start = JSNum.num a) (hrS : row.Start = JSNum.num b) :
    ((lineStep last row).1.Start
        = JSNum.num (if b < a then b + 36000000 else b))
    ∧ ((lineStep last row).2.Start = (lineStep last row).1.Start)
    ∧ (row.End = JSNum.inf →
        (lineStep last row).1.End = JSNum.inf
        ∧ (lineStep last row).2.End = last.End)
    ∧ (∀ e c, last.End = JSNum.num e → row.End = JSNum.num c →
        (lineStep last row).1.End
            = JSNum.num (if c < e then c + 36000000 else c)
        ∧ (lineStep last row).2.End = (lineStep last row).1.End)
    ∧ (lineStep (lineStep ⟨JSNum.num 0, JSNum.num 0⟩ r1C3).2 r2C3).1.Start
        = JSNum.num 36000100 := by
  have hfst : (lineStep last row).1
      = elideDefaultStyle (correctEnd last (correctStart last row)) := rfl
  refine ⟨?_, rfl, ?_, ?_, by decide⟩
  · rw [hfst, elideDefaultStyle_Start, correctEnd_Start,
      correctStart_eq last row a b hS hrS]
  · intro h
    have hE1 : (correctStart last row).End = JSNum.inf := by
      rw [correctStart_End]
      exact h
    have hE3 : (lineStep last row).1.End = JSNum.inf := by
      rw [hfst, elideDefaultStyle_End, correctEnd_of_inf last _ hE1, hE1]
    refine ⟨hE3, ?_⟩
    show (if !(JSNum.jsEqB (lineStep last row).1.End JSNum.inf) then
        (lineStep last row).1.End else last.End) = last.End
    rw [hE3]
    rfl
  · intro e c hE hrE
    have hE1 : (correctStart last row).End = JSNum.num c := by
      rw [correctStart_End]
      exact hrE
    have hE3 : (lineStep last row).1.End
        = JSNum.num (if c < e then c + 36000000 else c) := by
      rw [hfst, elideDefaultStyle_End, correctEnd_eq last _ e c hE hE1]
    refine ⟨hE3, ?_⟩
    show (if !(JSNum.jsEqB (lineStep last row).1.End JSNum.inf) then
        (lineStep last row).1.End else last.End) = (lineStep last row).1.End
    rw [hE3]
    rfl

/-- Witness for C3 at a concrete baseline and record, with both fields
corrected. -/
theorem claim_C3_rollover_witness :
    (lineStep ⟨JSNum.num 35999000, JSNum.num 5000⟩ qd2).1.Start
        = JSNum.num 36002000
    ∧ (lineStep ⟨JSNum.num 35999000, JSNum.num 5000⟩ qd2).1.End
        = JSNum.num 36003000 := by
  have h := claim_C3_rollover ⟨JSNum.num 35999000, JSNum.num 5000⟩ qd2
    35999000 2000 rfl rfl
  constructor
  · have h1 := h.1
    rwa [if_pos (by norm_num : (2000 : Int) < 35999000)] at h1
  · have h4 := (h.2.2.2.1 5000 3000 rfl rfl).1
    rwa [if_pos (by norm_num : (3000 : Int) < 5000)] at h4

/-- Conservation: each eviction increments `seq` exactly once, so
window length plus sequence number is invariant under the loop. -/
lemma evictLoop_conservation (size : Nat) (pl : List Segment) :
    ∀ i seq, (((evictLoop size i seq pl).1.length : Int)
        + (evictLoop size i seq pl).2)
      = (pl.length : Int) + seq := by
  induction pl with
  | nil =>
    intro i seq
    simp [evictLoop]
  | cons p rest ih =>
    intro i seq
    simp only [evictLoop]
    split
    · rw [ih (i + 1) (seq + 1)]
      push_cast [List.length_cons]
      ring
    · push_cast [List.length_cons]
      ring

/-- A window already within the bound is left untouched. -/
lemma evictLoop_no_evict (size : Nat) (pl : List Segment) (seq : Int)
    (h : pl.length ≤ size) : evictLoop size 0 seq pl = (pl, seq) := by
  cases pl with
  | nil => rfl
  | cons p rest =>
    simp only [evictLoop]
    rw [if_neg]
    push_cast [List.length_cons]
    simp only [List.length_cons] at h
    omega

/-- A window over the bound by exactly one loses exactly its head. -/
lemma evictLoop_one (size : Nat) (p : Segment) (rest : List Segment)
    (seq : Int) (h : rest.length = size) :
    evictLoop size 0 seq (p :: rest) = (rest, seq + 1) := by
  simp only [evictLoop]
  rw [if_pos (by push_cast [List.length_cons]; omega)]
  cases rest with
  | nil => rfl
  | cons q r2 =>
    simp only [evictLoop]
    rw [if_neg]
    simp only [List.length_cons] at h
    push_cast [List.length_cons]
    omega

/-- C6 counterexample: from a reconstructed window of 8 segments with
`hls_list_size = 3`, one full rotation leaves 6 segments — the loop's
shrinking bound evicts only ⌈(n − size)/2⌉ entries, so the claimed
window-length invariant `length ≤ hls_list_size` fails after this
rotation. -/
theorem claim_C6_counterexample :
    (rotateStep 3 (List.replicate 8 sA) 0 sA).1.length = 6
    ∧ ¬((rotateStep 3 (List.replicate 8 sA) 0 sA).1.length ≤ 3)
    ∧ (rotateStep 3 (List.replicate 8 sA) 0 sA).2 = 3 := by
  refine ⟨by decide, by decide, by decide⟩

/-- C6 amended: provided the window was within the configured bound
before the rotation (the steady state reachable from a fresh start), the
rotation keeps it within the bound; unconditionally, each evicted segment
increments the sequence counter by exactly one, so sequence number plus
window length grows by exactly one per appended segment (the next
segment's logical index). -/
theorem claim_C6_amended (size : Nat) (pl : List Segment) (seq : Int)
    (s : Segment) (h : pl.length ≤ size) :
    ((rotateStep size pl seq s).1.length ≤ size)
    ∧ (((rotateStep size pl seq s).1.length : Int)
        + (rotateStep size pl seq s).2 = (pl.length : Int) + 1 + seq)
    ∧ ((rotateStep size pl seq s).2
        = seq + ((pl.length : Int) + 1
          - (rotateStep size pl seq s).1.length)) := by
  have hc := evictLoop_conservation size (pl ++ [s]) 0 seq
  simp only [List.length_append, List.length_singleton] at hc
  have hgrow : (((rotateStep size pl seq s).1.length : Int)
      + (rotateStep size pl seq s).2 = (pl.length : Int) + 1 + seq) := by
    show (((evictLoop size 0 seq (pl ++ [s])).1.length : Int)
        + (evictLoop size 0 seq (pl ++ [s])).2) = _
    push_cast at hc
    omega
  refine ⟨?_, hgrow, by omega⟩
  rcases Nat.lt_or_ge pl.length size with hlt | hge
  · show (evictLoop size 0 seq (pl ++ [s])).1.length ≤ size
    rw [evictLoop_no_evict size _ seq
      (by simp only [List.length_append, List.length_singleton]; omega)]
    simp only [List.length_append, List.length_singleton]
    omega
  · have hEq : pl.length = size := le_antisymm h hge
    rcases hl : pl ++ [s] with _ | ⟨p, rest⟩
    · exact absurd hl (by simp)
    · have hr : rest.length = size := by
        have hlc := congrArg List.length hl
        simp only [List.length_append, List.length_singleton,
          List.length_cons, List.length_nil] at hlc
        omega
      show (evictLoop size 0 seq (pl ++ [s])).1.length ≤ size
      rw [hl, evictLoop_one size p rest seq hr, hr]

/-- Witness for C6's amended theorem: a full window of 3 with
`hls_list_size = 3` rotates to a window of 3 with one eviction. -/
theorem claim_C6_amended_witness :
    ((rotateStep 3 (List.replicate 3 sA) 5 sA).1.length ≤ 3)
    ∧ (((rotateStep 3 (List.replicate 3 sA) 5 sA).1.length : Int)
        + (rotateStep 3 (List.replicate 3 sA) 5 sA).2
        = ((List.replicate 3 sA).length : Int) + 1 + 5)
    ∧ ((rotateStep 3 (List.replicate 3 sA) 5 sA).2
        = 5 + (((List.replicate 3 sA).length : Int) + 1
          - (rotateStep 3 (List.replicate 3 sA) 5 sA).1.length)) :=
  claim_C6_amended 3 (List.replicate 3 sA) 5 sA (by decide)

/-- C7 counterexample: with *two* buffered records sharing one start, the
difference last − first is 0 and the code still substitutes the nominal
duration `hls_time * 1000` — the fallback is keyed on a zero (falsy)
difference, not on there being only one record, so the claimed duration
`last.start − first.start` fails here. -/
theorem claim_C7_counterexample :
    computeDuration [e1C7, e2C7] 2 = JSNum.num 2000
    ∧ JSNum.jsSub e2C7.Start e1C7.Start = JSNum.num 0
    ∧ JSNum.num 2000 ≠ JSNum.num 0 := by
  refine ⟨rfl, rfl, by decide⟩

/-- C7 amended: on a non-empty buffer with finite starts, the segment
duration is last.start − first.start whenever that difference is nonzero,
and the nominal `hls_time * 1000` otherwise (in particular for a single
record, whose difference is necessarily 0, and for several records
sharing one start); when the starts are in order and `hls_time` is
positive, the duration is positive. -/
theorem claim_C7_amended (events : List AssDialogue) (f l : AssDialogue)
    (hls_time a b : Int) (hf : events.head? = some f)
    (hl : events.getLast? = some l) (ha : f.Start = JSNum.num a)
    (hb : l.Start = JSNum.num b) :
    (computeDuration events hls_time
      = if b - a ≠ 0 then JSNum.num (b - a)
        else JSNum.num (hls_time * 1000))
    ∧ (a ≤ b → 0 < hls_time →
        ∃ k, computeDuration events hls_time = JSNum.num k ∧ 0 < k) := by
  have hsub : JSNum.jsSub l.Start f.Start = JSNum.num (b - a) := by
    rw [ha, hb]
    show JSNum.num (b + -a) = JSNum.num (b - a)
    rw [sub_eq_add_neg]
  have h1 : computeDuration events hls_time
      = if JSNum.jsTruthy (JSNum.num (b - a)) then JSNum.num (b - a)
        else JSNum.num (hls_time * 1000) := by
    unfold computeDuration
    rw [hf, hl]
    show (if JSNum.jsTruthy (JSNum.jsSub l.Start f.Start) then
        JSNum.jsSub l.Start f.Start
      else JSNum.num (hls_time * 1000)) = _
    rw [hsub]
  constructor
  · rw [h1]
    by_cases hz : b - a = 0
    · rw [if_neg (by simp [JSNum.jsTruthy, hz]), if_neg (by simp [hz])]
    · rw [if_pos (by simp [JSNum.jsTruthy, hz]), if_pos hz]
  · intro hab hpos
    by_cases hz : b - a = 0
    · refine ⟨hls_time * 1000, ?_, by positivity⟩
      rw [h1, if_neg (by simp [JSNum.jsTruthy, hz])]
    · refine ⟨b - a, ?_, by omega⟩
      rw [h1, if_pos (by simp [JSNum.jsTruthy, hz])]

/-- Witness for C7's amended theorem at a concrete two-record buffer. -/
theorem claim_C7_amended_witness :
    (computeDuration [qd2, e2C7] 2
      = if (5000 : Int) - 2000 ≠ 0 then JSNum.num (5000 - 2000)
        else JSNum.num (2 * 1000))
    ∧ ∃ k, computeDuration [qd2, e2C7] 2 = JSNum.num k ∧ 0 < k :=
  have h := claim_C7_amended [qd2, e2C7] qd2 e2C7 2 2000 5000 rfl rfl rfl rfl
  ⟨h.1, h.2 (by norm_num) (by norm_num)⟩

/-- C1: reconstructing the three-entry playlist indeed yields a window of
exactly those three segments, with durations (in milliseconds) and
program-date-times preserved and no segment line dropped — but the
sequence counter comes out as 0, not the claimed 7: the code reads the
media-sequence value with `substring(tagName.length+1, line.length-1)`,
which drops the final digit (`Number("") === 0`).  The failing input is
the line `#EXT-X-MEDIA-SEQUENCE:7`. -/
theorem claim_C1_reconstruction :
    reconstruct c1Lines initialRState
      = .ok ⟨JSNum.num 0,
          [⟨jstr "seg1.ass", jstr "2026-01-01T00:00:00.000+0000",
            JSNum.num 2000, false⟩,
           ⟨jstr "seg2.ass", jstr "2026-01-01T00:00:02.000+0000",
            JSNum.num 3000, false⟩,
           ⟨jstr "seg3.ass", jstr "2026-01-01T00:00:05.000+0000",
            JSNum.num 2500, false⟩],
          none, none, false⟩
    ∧ JSNum.num 0 ≠ JSNum.num 7 := by
  exact ⟨by rfl, by decide⟩

/-- The closing loop closes and collects exactly the longest prefix of
queued items whose start differs from the incoming one, and leaves the
rest of the queue (starting with the first same-start item) untouched. -/
lemma pushLoop_eq (s : JSNum) (q : List AssDialogue) :
    AssDialogueQueue.pushLoop s q =
      ((q.takeWhile fun d => !(JSNum.jsEqB d.Start s)).map
          (fun d => {d with End := s}),
        q.dropWhile fun d => !(JSNum.jsEqB d.Start s)) := by
  induction q with
  | nil => rfl
  | cons a t ih =>
    by_cases hEq : JSNum.jsEqB a.Start s
    · simp [AssDialogueQueue.pushLoop, hEq, List.takeWhile_cons,
        List.dropWhile_cons]
    · simp [AssDialogueQueue.pushLoop, hEq, List.takeWhile_cons,
        List.dropWhile_cons, ih]

/-- Full characterization of `push`, shared by the claim C4 and C5
proofs. -/
lemma push_eq (q : List AssDialogue) (ni : AssDialogue) :
    AssDialogueQueue.push q ni =
      ((q.takeWhile fun d => !(JSNum.jsEqB d.Start ni.Start)).map
          (fun d => {d with End := ni.Start})
        ++ (if !(JSNum.jsEqB ni.End JSNum.inf) && textTruthy ni then [ni]
            else []),
        (q.dropWhile fun d => !(JSNum.jsEqB d.Start ni.Start))
        ++ (if JSNum.jsEqB ni.End JSNum.inf && textTruthy ni then [ni]
            else [])) := by
  unfold AssDialogueQueue.push
  rw [pushLoop_eq]
  by_cases h1 : JSNum.jsEqB ni.End JSNum.inf <;>
    by_cases h2 : textTruthy ni <;> simp [h1, h2]

/-- C4: `AssDialogueQueue.push` closes (end := incoming start) and returns,
in buffer order, every buffered record before the first one whose start
equals the incoming start; that record and everything after it stay
buffered.  The incoming record joins the returned batch if its end is
non-open, joins the buffer if its end is open, and is dropped entirely
(in both cases, while still having closed the prefix) when its text
payload is empty or absent. -/
theorem claim_C4_push (q : List AssDialogue) (ni : AssDialogue) :
    AssDialogueQueue.push q ni =
      ((q.takeWhile fun d => !(JSNum.jsEqB d.Start ni.Start)).map
          (fun d => {d with End := ni.Start})
        ++ (if !(JSNum.jsEqB ni.End JSNum.inf) && textTruthy ni then [ni]
            else []),
        (q.dropWhile fun d => !(JSNum.jsEqB d.Start ni.Start))
        ++ (if JSNum.jsEqB ni.End JSNum.inf && textTruthy ni then [ni]
            else [])) :=
  push_eq q ni

/-- `flush` is an order-preserving map: it closes exactly the still-open
records to start + maxDuration and leaves the rest unchanged. -/
lemma flush_eq_map (m : Int) (q : List AssDialogue) :
    AssDialogueQueue.flush m q =
      q.map fun d =>
        if JSNum.jsEqB d.End JSNum.inf then
          {d with End := JSNum.jsAdd d.Start (JSNum.num m)}
        else d := by
  induction q with
  | nil => rfl
  | cons a t ih => simp [AssDialogueQueue.flush, ih]

/-- `flush` does not change any record's identity-apart-from-end. -/
lemma flush_map_eraseEnd (m : Int) (q : List AssDialogue) :
    (AssDialogueQueue.flush m q).map eraseEnd = q.map eraseEnd := by
  rw [flush_eq_map, List.map_map]
  refine List.map_congr_left fun d _ => ?_
  by_cases h : JSNum.jsEqB d.End JSNum.inf <;> simp [h, eraseEnd]

/-- Closing a record against a new start does not change its
identity-apart-from-end. -/
lemma eraseEnd_comp_close (s : JSNum) :
    (eraseEnd ∘ fun d : AssDialogue => {d with End := s}) = eraseEnd := rfl

open List in
/-- Assembling lemma: a batch/queue pair made of a split `T ++ D = Q` with
at most one nonempty extra chunk is a permutation of `Q` with the extras
appended. -/
lemma assemble_perm {α : Type} (T D Q o1 o2 : List α) (hTD : T ++ D = Q)
    (h : o1 = [] ∨ o2 = []) :
    ((T ++ o1) ++ (D ++ o2)).Perm (Q ++ (o1 ++ o2)) := by
  rcases h with rfl | rfl
  · rw [List.append_nil, List.nil_append, ← List.append_assoc, hTD]
  · rw [List.append_nil, List.append_nil]
    calc (T ++ o1) ++ D
        = T ++ (o1 ++ D) := List.append_assoc _ _ _
      _ ~ T ++ (D ++ o1) := List.Perm.append_left _ List.perm_append_comm
      _ = (T ++ D) ++ o1 := (List.append_assoc _ _ _).symm
      _ = Q ++ o1 := by rw [hTD]

/-- One `push` step: emitted-batch plus new-queue account exactly for the
old queue plus (if its text is nonempty) the incoming record, with ends
erased. -/
lemma push_perm (q : List AssDialogue) (ni : AssDialogue) :
    ((AssDialogueQueue.push q ni).1.map eraseEnd
      ++ (AssDialogueQueue.push q ni).2.map eraseEnd).Perm
      (q.map eraseEnd ++ if textTruthy ni then [eraseEnd ni] else []) := by
  rw [push_eq]
  have hTD : ((q.takeWhile fun d => !(JSNum.jsEqB d.Start ni.Start)).map eraseEnd)
      ++ ((q.dropWhile fun d => !(JSNum.jsEqB d.Start ni.Start)).map eraseEnd)
      = q.map eraseEnd := by
    rw [← List.map_append, List.takeWhile_append_dropWhile]
  have hopt : (if !(JSNum.jsEqB ni.End JSNum.inf) && textTruthy ni then [ni]
        else []).map eraseEnd = []
      ∨ (if JSNum.jsEqB ni.End JSNum.inf && textTruthy ni then [ni]
        else []).map eraseEnd = [] := by
    by_cases h1 : JSNum.jsEqB ni.End JSNum.inf
    · left
      simp [h1]
    · right
      simp [h1]
  have hRHS : (if !(JSNum.jsEqB ni.End JSNum.inf) && textTruthy ni then [ni]
          else []).map eraseEnd
      ++ (if JSNum.jsEqB ni.End JSNum.inf && textTruthy ni then [ni]
          else []).map eraseEnd
      = (if textTruthy ni then [eraseEnd ni] else []) := by
    by_cases h1 : JSNum.jsEqB ni.End JSNum.inf <;>
      by_cases h2 : textTruthy ni <;> simp [h1, h2]
  rw [List.map_append, List.map_append, List.map_map, eraseEnd_comp_close]
  exact (assemble_perm _ _ _ _ _ hTD hopt).trans (by rw [hRHS])

/-- One `push` step: every record in the returned batch has a finite
end. -/
lemma push_batch_closed (q : List AssDialogue) (ni : AssDialogue)
    (hni : validD ni) :
    ∀ e ∈ (AssDialogueQueue.push q ni).1, ∃ b, e.End = JSNum.num b := by
  rw [push_eq]
  intro e he
  rcases List.mem_append.mp he with hL | hR
  · rcases List.mem_map.mp hL with ⟨d, _, rfl⟩
    rcases hni.1 with ⟨a, ha⟩
    exact ⟨a, by cases d; simpa using ha⟩
  · by_cases h1 : JSNum.jsEqB ni.End JSNum.inf
    · simp [h1] at hR
    · by_cases h2 : textTruthy ni
      · simp [h1, h2] at hR
        subst hR
        rcases hni.2 with hinf | ⟨b, hb⟩
        · rw [hinf] at h1
          simp [JSNum.jsEqB] at h1
        · exact ⟨b, hb⟩
      · simp [h2] at hR

/-- One `push` step: the queue keeps only open, nonempty-text,
finite-start records. -/
lemma push_queue_open (q : List AssDialogue) (ni : AssDialogue)
    (hq : ∀ d ∈ q, openD d) (hni : validD ni) :
    ∀ d ∈ (AssDialogueQueue.push q ni).2, openD d := by
  rw [push_eq]
  intro d hd
  rcases List.mem_append.mp hd with hL | hR
  · exact hq d ((List.dropWhile_sublist _).subset hL)
  · by_cases h1 : JSNum.jsEqB ni.End JSNum.inf
    · by_cases h2 : textTruthy ni
      · simp [h1, h2] at hR
        subst hR
        refine ⟨?_, h2, hni.1⟩
        rcases hni.2 with hinf | ⟨b, hb⟩
        · exact hinf
        · rw [hb] at h1
          simp [JSNum.jsEqB] at h1
      · simp [h2] at hR
    · simp [h1] at hR

/-- One `push` step: the new queue is a sublist of the old queue followed
by the incoming record (arrival order is preserved). -/
lemma push_queue_sublist (q : List AssDialogue) (ni : AssDialogue) :
    (AssDialogueQueue.push q ni).2.Sublist (q ++ [ni]) := by
  rw [push_eq]
  refine List.Sublist.append (List.dropWhile_sublist _) ?_
  split <;> simp

open List in
/-- The main queue invariant, by induction over the pushed inputs. -/
lemma runPush_invariant (inputs : List AssDialogue) :
    ∀ q, (∀ d ∈ q, openD d) → (∀ d ∈ inputs, validD d) →
      (∀ e ∈ (runPush q inputs).1, ∃ b, e.End = JSNum.num b)
      ∧ (∀ d ∈ (runPush q inputs).2, openD d)
      ∧ ((runPush q inputs).2).Sublist (q ++ inputs)
      ∧ ((runPush q inputs).1.map eraseEnd
          ++ (runPush q inputs).2.map eraseEnd).Perm
          (q.map eraseEnd ++ (inputs.filter textTruthy).map eraseEnd) := by
  induction inputs with
  | nil =>
    intro q hq _
    refine ⟨fun e he => absurd he (List.not_mem_nil e), hq, by simp [runPush],
      by simp [runPush]⟩
  | cons x xs ih =>
    intro q hq hv
    have hvx : validD x := hv x (List.mem_cons_self x xs)
    have hvxs : ∀ d ∈ xs, validD d := fun d hd => hv d (List.mem_cons_of_mem x hd)
    have hq' : ∀ d ∈ (AssDialogueQueue.push q x).2, openD d :=
      push_queue_open q x hq hvx
    obtain ⟨ih1, ih2, ih3, ih4⟩ := ih (AssDialogueQueue.push q x).2 hq' hvxs
    have hfst : (runPush q (x :: xs)).1
        = (AssDialogueQueue.push q x).1
          ++ (runPush (AssDialogueQueue.push q x).2 xs).1 := rfl
    have hsnd : (runPush q (x :: xs)).2
        = (runPush (AssDialogueQueue.push q x).2 xs).2 := rfl
    refine ⟨?_, by rw [hsnd]; exact ih2, ?_, ?_⟩
    · intro e he
      rw [hfst] at he
      rcases List.mem_append.mp he with h | h
      · exact push_batch_closed q x hvx e h
      · exact ih1 e h
    · rw [hsnd]
      refine ih3.trans ?_
      have hstep := List.Sublist.append (push_queue_sublist q x)
        (List.Sublist.refl xs)
      simpa using hstep
    · rw [hfst, hsnd]
      have hcons : ((x :: xs).filter textTruthy).map eraseEnd
          = (if textTruthy x then [eraseEnd x] else [])
            ++ (xs.filter textTruthy).map eraseEnd := by
        by_cases h2 : textTruthy x <;> simp [List.filter_cons, h2]
      rw [hcons]
      calc ((AssDialogueQueue.push q x).1
                ++ (runPush (AssDialogueQueue.push q x).2 xs).1).map eraseEnd
              ++ ((runPush (AssDialogueQueue.push q x).2 xs).2).map eraseEnd
          = (AssDialogueQueue.push q x).1.map eraseEnd
              ++ ((runPush (AssDialogueQueue.push q x).2 xs).1.map eraseEnd
                ++ ((runPush (AssDialogueQueue.push q x).2 xs).2).map eraseEnd) := by
            rw [List.map_append, List.append_assoc]
        _ ~ (AssDialogueQueue.push q x).1.map eraseEnd
              ++ ((AssDialogueQueue.push q x).2.map eraseEnd
                ++ (xs.filter textTruthy).map eraseEnd) :=
            List.Perm.append_left _ ih4
        _ = ((AssDialogueQueue.push q x).1.map eraseEnd
              ++ (AssDialogueQueue.push q x).2.map eraseEnd)
              ++ (xs.filter textTruthy).map eraseEnd := by
            rw [List.append_assoc]
        _ ~ (q.map eraseEnd ++ (if textTruthy x then [eraseEnd x] else []))
              ++ (xs.filter textTruthy).map eraseEnd :=
            (push_perm q x).append_right _
        _ = q.map eraseEnd
              ++ ((if textTruthy x then [eraseEnd x] else [])
                ++ (xs.filter textTruthy).map eraseEnd) := by
            rw [List.append_assoc]

/-- C5: over any full queue session on data-model-valid records (finite
starts, ends finite or the open sentinel), every record emitted by `push`
or by the final `flush` has a finite (non-open) end; the final queue is a
sublist of the inputs (arrival order preserved), `flush` is the
order-preserving map closing exactly the still-open records to
start + maxDuration, and the emitted records, identity-wise, are exactly
the nonempty-text inputs with no duplication and no loss. -/
theorem claim_C5_queue (inputs : List AssDialogue) (m : Int)
    (hv : ∀ d ∈ inputs, validD d) :
    (∀ e ∈ runQueue inputs m, ∃ b, e.End = JSNum.num b)
    ∧ ((runPush [] inputs).2).Sublist inputs
    ∧ AssDialogueQueue.flush m (runPush [] inputs).2
        = ((runPush [] inputs).2).map (fun d =>
            if JSNum.jsEqB d.End JSNum.inf then
              {d with End := JSNum.jsAdd d.Start (JSNum.num m)}
            else d)
    ∧ ((runQueue inputs m).map eraseEnd).Perm
        ((inputs.filter textTruthy).map eraseEnd) := by
  obtain ⟨h1, h2, h3, h4⟩ := runPush_invariant inputs []
    (fun d hd => absurd hd (List.not_mem_nil d)) hv
  refine ⟨?_, by simpa using h3, flush_eq_map m _, ?_⟩
  · intro e he
    rcases List.mem_append.mp he with h | h
    · exact h1 e h
    · rw [flush_eq_map] at h
      rcases List.mem_map.mp h with ⟨d, hd, rfl⟩
      obtain ⟨hinf, _, a, ha⟩ := h2 d hd
      have hb : JSNum.jsEqB d.End JSNum.inf = true := by rw [hinf]; rfl
      rw [if_pos hb]
      refine ⟨a + m, ?_⟩
      show JSNum.jsAdd d.Start (JSNum.num m) = JSNum.num (a + m)
      rw [ha]
      rfl
  · unfold runQueue
    rw [List.map_append, flush_map_eraseEnd]
    simpa using h4

/-- Witness for C5: the queue theorem applied to a concrete two-record
session. -/
theorem claim_C5_queue_witness :
    (∀ e ∈ runQueue [qd1, qd2] 5000, ∃ b, e.End = JSNum.num b)
    ∧ ((runPush [] [qd1, qd2]).2).Sublist [qd1, qd2]
    ∧ AssDialogueQueue.flush 5000 (runPush [] [qd1, qd2]).2
        = ((runPush [] [qd1, qd2]).2).map (fun d =>
            if JSNum.jsEqB d.End JSNum.inf then
              {d with End := JSNum.jsAdd d.Start (JSNum.num 5000)}
            else d)
    ∧ ((runQueue [qd1, qd2] 5000).map eraseEnd).Perm
        (([qd1, qd2].filter textTruthy).map eraseEnd) :=
  claim_C5_queue [qd1, qd2] 5000 (by
    intro d hd
    rcases List.mem_cons.mp hd with rfl | hd
    · exact ⟨⟨100, rfl⟩, Or.inl rfl⟩
    · rcases List.mem_cons.mp hd with rfl | hd
      · exact ⟨⟨2000, rfl⟩, Or.inr ⟨3000, rfl⟩⟩
      · exact absurd hd (List.not_mem_nil d))

/-- `jsDigitChar` lands in the digit characters whenever its argument is a
digit value. -/
lemma jsDigitChar_mem (n : Nat) (h : n < 10) : jsDigitChar n ∈ decDigits := by
  interval_cases n <;> decide

/-- Every character produced by `natToCharsAux` is a decimal digit (given
a digit-only accumulator). -/
lemma natToCharsAux_mem (fuel : Nat) :
    ∀ n acc, (∀ c ∈ acc, c ∈ decDigits) →
      ∀ c ∈ natToCharsAux fuel n acc, c ∈ decDigits := by
  induction fuel with
  | zero => intro n acc hacc c hc; exact hacc c hc
  | succ fuel ih =>
    intro n acc hacc c hc
    rw [natToCharsAux] at hc
    split at hc
    · rcases List.mem_cons.mp hc with rfl | hmem
      · exact jsDigitChar_mem n (by omega)
      · exact hacc c hmem
    · refine ih (n / 10) _ ?_ c hc
      intro x hx
      rcases List.mem_cons.mp hx with rfl | hmem
      · exact jsDigitChar_mem (n % 10) (Nat.mod_lt n (by omega))
      · exact hacc x hmem

/-- Every character of a JavaScript-rendered nonnegative integer is a
decimal digit. -/
lemma natToChars_mem (n : Nat) : ∀ c ∈ natToChars n, c ∈ decDigits :=
  natToCharsAux_mem (n + 1) n [] (by intro c hc; cases hc)

/-- Helper: `natToCharsAux` never re-empties a nonempty accumulator. -/
lemma natToCharsAux_ne_nil (fuel : Nat) :
    ∀ n acc, acc ≠ [] → natToCharsAux fuel n acc ≠ [] := by
  induction fuel with
  | zero =>
    intro n acc h
    simpa [natToCharsAux] using h
  | succ fuel ih =>
    intro n acc h
    rw [natToCharsAux]
    split
    · simp
    · exact ih (n / 10) _ (by simp)

/-- `natToChars` never yields the empty string. -/
lemma natToChars_ne_nil (n : Nat) : natToChars n ≠ [] := by
  unfold natToChars
  rw [natToCharsAux]
  split
  · simp
  · exact natToCharsAux_ne_nil n (n / 10) _ (by simp)

/-- Characters coming out of `jsPadStart`. -/
lemma mem_jsPadStart {c p : Char} {s : List Char} {n : Nat}
    (h : c ∈ jsPadStart s n p) : c = p ∨ c ∈ s := by
  unfold jsPadStart at h
  rcases List.mem_append.mp h with h | h
  · exact Or.inl (List.eq_of_mem_replicate h)
  · exact Or.inr h

/-- Characters coming out of `jsPadEnd`. -/
lemma mem_jsPadEnd {c p : Char} {s : List Char} {n : Nat}
    (h : c ∈ jsPadEnd s n p) : c = p ∨ c ∈ s := by
  unfold jsPadEnd at h
  rcases List.mem_append.mp h with h | h
  · exact Or.inr h
  · exact Or.inl (List.eq_of_mem_replicate h)

/-- Characters of the subtitle timestamp rendering: digits, `:`, `.` and
a possible leading `-`. -/
lemma toASSTSString_chars (v : Int) :
    ∀ c ∈ AssDialogue.toASSTSString v,
      c ∈ decDigits ∨ c = ':' ∨ c = '.' ∨ c = '-' := by
  intro c hc
  simp only [AssDialogue.toASSTSString] at hc
  rcases List.mem_append.mp hc with h1 | h1
  · rcases List.mem_append.mp h1 with h2 | h2
    · rcases List.mem_append.mp h2 with h3 | h3
      · rcases List.mem_append.mp h3 with h4 | h4
        · split at h4
          · simp only [jstr] at h4
            rcases List.mem_singleton.mp h4 with rfl
            exact Or.inr (Or.inr (Or.inr rfl))
          · cases h4
        · rcases mem_jsPadStart h4 with rfl | h5
          · exact Or.inl (by decide)
          · exact Or.inl (natToChars_mem _ c h5)
      · rcases List.mem_cons.mp h3 with rfl | h5
        · exact Or.inr (Or.inl rfl)
        · rcases mem_jsPadStart h5 with rfl | h6
          · exact Or.inl (by decide)
          · exact Or.inl (natToChars_mem _ c h6)
    · rcases List.mem_cons.mp h2 with rfl | h5
      · exact Or.inr (Or.inl rfl)
      · rcases mem_jsPadStart h5 with rfl | h6
        · exact Or.inl (by decide)
        · exact Or.inl (natToChars_mem _ c h6)
  · rcases List.mem_cons.mp h1 with rfl | h5
    · exact Or.inr (Or.inr (Or.inl rfl))
    · rcases mem_jsPadEnd h5 with rfl | h6
      · exact Or.inl (by decide)
      · exact Or.inl (natToChars_mem _ c (List.mem_of_mem_take h6))

/-- No comma ever occurs in a rendered subtitle timestamp. -/
lemma comma_not_mem_toASSTSString (v : Int) :
    ',' ∉ AssDialogue.toASSTSString v := by
  intro h
  rcases toASSTSString_chars v ',' h with h | h | h | h
  · exact absurd h (by decide)
  · cases h
  · cases h
  · cases h

/-- `splitAux` on a separator-free string yields one chunk. -/
lemma splitAux_not_mem (sep : Char) (s : List Char) (h : sep ∉ s) :
    ∀ acc, splitAux sep s acc = [acc.reverse ++ s] := by
  induction s with
  | nil =>
    intro acc
    simp [splitAux]
  | cons x rest ih =>
    intro acc
    have hx : ¬x = sep := fun hxe => h (hxe ▸ List.mem_cons_self x rest)
    rw [splitAux, if_neg hx, ih (fun hm => h (List.mem_cons_of_mem x hm))]
    simp

/-- `splitAux` at the first separator: the prefix closes the current
chunk and splitting restarts on the suffix. -/
lemma splitAux_append_sep (sep : Char) (pre : List Char) (h : sep ∉ pre) :
    ∀ suf acc, splitAux sep (pre ++ sep :: suf) acc
      = (acc.reverse ++ pre) :: splitAux sep suf [] := by
  induction pre with
  | nil =>
    intro suf acc
    rw [List.nil_append, splitAux, if_pos rfl]
    simp
  | cons x rest ih =>
    intro suf acc
    have hx : ¬x = sep := fun hxe => h (hxe ▸ List.mem_cons_self x rest)
    rw [List.cons_append, splitAux, if_neg hx,
      ih (fun hm => h (List.mem_cons_of_mem x hm))]
    simp

/-- `splitAux` always returns at least one chunk. -/
lemma splitAux_ne_nil (sep : Char) (s : List Char) :
    ∀ acc, splitAux sep s acc ≠ [] := by
  induction s with
  | nil => intro acc; simp [splitAux]
  | cons x rest ih =>
    intro acc
    rw [splitAux]
    split
    · simp
    · exact ih _

/-- JavaScript `split(sep, 2)` on a string with a separator after a
separator-free prefix: exactly two chunks, the first being the prefix. -/
lemma jsSplit_two (sep : Char) (pre suf : List Char) (h : sep ∉ pre) :
    ∃ second, jsSplit (pre ++ sep :: suf) sep 2 = [pre, second] := by
  unfold jsSplit
  rw [splitAux_append_sep sep pre h suf []]
  rcases hx : splitAux sep suf [] with _ | ⟨hd, tl⟩
  · exact absurd hx (splitAux_ne_nil sep suf [])
  · exact ⟨hd, by simp⟩

/-- JavaScript `substring` with in-range endpoints is take-then-drop. -/
lemma jsSubstring_of_bounds (s : List Char) (a b : Nat) (hab : a ≤ b)
    (hb : b ≤ s.length) :
    jsSubstring s (a : Int) (b : Int) = (s.take b).drop a := by
  simp only [jsSubstring]
  have h1 : min (max (a : Int) 0) (s.length : Int) = (a : Int) := by omega
  have h2 : min (max (b : Int) 0) (s.length : Int) = (b : Int) := by omega
  rw [h1, h2]
  have h3 : min (a : Int) (b : Int) = (a : Int) := by omega
  have h4 : max (a : Int) (b : Int) = (b : Int) := by omega
  rw [h3, h4, Int.toNat_natCast, Int.toNat_natCast]

/-- Extracting a middle chunk with `substring`. -/
lemma jsSubstring_extract (pre mid suf : List Char) :
    jsSubstring (pre ++ mid ++ suf) (pre.length : Int)
      ((pre.length : Int) + (mid.length : Int))
      = mid := by
  have hcast : (pre.length : Int) + (mid.length : Int)
      = ((pre.length + mid.length : Nat) : Int) := by push_cast; ring
  rw [hcast, jsSubstring_of_bounds _ _ _ (by omega)
    (by simp only [List.length_append]; omega)]
  have hlen : pre.length + mid.length = (pre ++ mid).length := by
    simp [List.length_append]
  rw [hlen, List.take_left (pre ++ mid) suf, List.drop_left pre mid]

/-- Extracting the final chunk with one-argument `substring`. -/
lemma jsSubstringFrom_extract (pre X : List Char) :
    jsSubstringFrom (pre ++ X) (pre.length : Int) = X := by
  simp only [jsSubstringFrom]
  have h1 : min (max ((pre.length : Nat) : Int) 0) (((pre ++ X).length : Nat) : Int)
      = ((pre.length : Nat) : Int) := by
    simp only [List.length_append]
    omega
  rw [h1, Int.toNat_natCast, List.drop_left pre X]

/-- `indexOfAux` over a clean prefix followed by the sought character. -/
lemma indexOfAux_found (c : Char) (pre : List Char) (h : c ∉ pre) :
    ∀ suf i, indexOfAux c (pre ++ c :: suf) i = ((i + pre.length : Nat) : Int) := by
  induction pre with
  | nil =>
    intro suf i
    rw [List.nil_append, indexOfAux, if_pos rfl]
    simp
  | cons x rest ih =>
    intro suf i
    have hx : ¬x = c := fun hxe => h (hxe ▸ List.mem_cons_self x rest)
    rw [List.cons_append, indexOfAux, if_neg hx,
      ih (fun hm => h (List.mem_cons_of_mem x hm))]
    push_cast [List.length_cons]
    ring

/-- `indexOf` from the boundary of a known prefix. -/
lemma indexOfFrom_append (c : Char) (pre X : List Char) :
    indexOfFrom (pre ++ X) c pre.length = indexOfAux c X pre.length := by
  unfold indexOfFrom
  rw [List.drop_left pre X]

/-- `joinComma` on at least two chunks. -/
lemma joinComma_cons₂ (c c2 : List Char) (rest : List (List Char)) :
    joinComma (c :: c2 :: rest) = c ++ ',' :: joinComma (c2 :: rest) := rfl

/-- The constructor's splitting loop, on a line made of a prefix (whose
last character plays the separator role, at index `pos`) followed by
comma-joined chunks, one chunk per remaining field name, all chunks
before the last comma-free: it assigns the fields to the chunks in
declaration order (most recent assignment first). -/
lemma parseLoop_spec :
    ∀ (chunks : List (List Char)) (format : List String) (pre : List Char)
      (idx pos fuel : Nat) (acc : List (String × List Char)),
      chunks.length + idx = format.length →
      chunks ≠ [] →
      pre.length = pos + 1 →
      (∀ c ∈ chunks.dropLast, ',' ∉ c) →
      chunks.length ≤ fuel →
      parseLoop (pre ++ joinComma chunks) format fuel idx pos acc
        = ((format.drop idx).zip chunks).reverse ++ acc := by
  intro chunks
  induction chunks with
  | nil =>
    intro format pre idx pos fuel acc _ hne
    exact absurd rfl hne
  | cons c rest ih =>
    intro format pre idx pos fuel acc hlen hne hpre hcf hfuel
    cases fuel with
    | zero =>
      simp only [List.length_cons] at hfuel
      omega
    | succ f =>
      cases rest with
      | nil =>
        have hidx : idx + 1 = format.length := by
          simp only [List.length_cons, List.length_nil] at hlen
          omega
        have hlt : idx < format.length := by omega
        simp only [parseLoop]
        rw [if_pos (by omega : ((idx : Int) = (format.length : Int) - 1))]
        rw [if_pos rfl]
        have hstr : pre ++ joinComma [c] = pre ++ c := rfl
        have hcast : ((pos + 1 : Nat) : Int) = (pre.length : Int) := by
          rw [hpre]
        rw [hstr, hcast, jsSubstringFrom_extract pre c]
        have hdrop1 : format.drop (idx + 1) = [] :=
          List.drop_eq_nil_of_le (by omega)
        rw [List.drop_eq_getElem_cons hlt, hdrop1]
        simp [jsKey, List.getElem?_eq_getElem hlt]
      | cons c2 rest2 =>
        have hlt : idx < format.length := by
          simp only [List.length_cons] at hlen
          omega
        have hccf : ',' ∉ c := hcf c (by simp)
        simp only [parseLoop]
        rw [if_neg (by
          simp only [List.length_cons] at hlen
          omega : ¬((idx : Int) = (format.length : Int) - 1))]
        have hjoin : joinComma (c :: c2 :: rest2)
            = c ++ ',' :: joinComma (c2 :: rest2) := rfl
        have hpos' : indexOfFrom (pre ++ joinComma (c :: c2 :: rest2)) ','
            (pos + 1) = ((pre.length + c.length : Nat) : Int) := by
          rw [hjoin, show pos + 1 = pre.length from hpre.symm,
            indexOfFrom_append, indexOfAux_found ',' c hccf]
        rw [hpos']
        have hneg : ¬(((pre.length + c.length : Nat) : Int) = -1) := by omega
        rw [if_neg hneg, if_neg hneg]
        have hval : jsSubstring (pre ++ joinComma (c :: c2 :: rest2))
            ((pos + 1 : Nat) : Int) ((pre.length + c.length : Nat) : Int)
            = c := by
          rw [hjoin, show ((pos + 1 : Nat) : Int) = (pre.length : Int) from
            by rw [hpre],
            show pre ++ (c ++ ',' :: joinComma (c2 :: rest2))
              = pre ++ c ++ (',' :: joinComma (c2 :: rest2)) from
            (List.append_assoc pre c _).symm,
            show ((pre.length + c.length : Nat) : Int)
              = (pre.length : Int) + (c.length : Int) from by push_cast; ring]
          exact jsSubstring_extract pre c _
        rw [hval, Int.toNat_natCast]
        have hstr2 : pre ++ joinComma (c :: c2 :: rest2)
            = (pre ++ c ++ [',']) ++ joinComma (c2 :: rest2) := by
          rw [hjoin]
          simp [List.append_assoc]
        rw [hstr2]
        rw [ih format (pre ++ c ++ [',']) (idx + 1) (pre.length + c.length) f
          ((jsKey format idx, c) :: acc)
          (by simp only [List.length_cons] at hlen ⊢; omega)
          (by simp)
          (by simp only [List.length_append, List.length_singleton])
          (by
            intro x hx
            exact hcf x (List.mem_cons_of_mem c (by simpa using hx)))
          (by simp only [List.length_cons] at hfuel ⊢; omega)]
        rw [List.drop_eq_getElem_cons hlt, List.zip_cons_cons,
          List.reverse_cons, List.append_assoc, List.singleton_append]
        simp only [jsKey, List.getElem?_eq_getElem hlt, Option.getD_some]

/-- Zero-padded renderings of nonnegative integers are all digits. -/
lemma pad_digits (n k : Nat) :
    ∀ c ∈ jsPadStart (natToChars n) k '0', c ∈ decDigits := by
  intro c hc
  rcases mem_jsPadStart hc with rfl | h
  · decide
  · exact natToChars_mem n c h

/-- `jsPadStart` of a nonempty string is nonempty. -/
lemma jsPadStart_ne_nil {s : List Char} {n : Nat} {p : Char} (h : s ≠ []) :
    jsPadStart s n p ≠ [] := by
  unfold jsPadStart
  simp [h]

/-- The timestamp formatter's output, reassociated: an optional sign, the
dot-free `H:MM:SS` body, a dot, and the fraction. -/
lemma toASSTSString_shape (v : Int) :
    AssDialogue.toASSTSString v
      = (if v < 0 then jstr "-" else [])
        ++ ((jsPadStart (natToChars (v.natAbs / 3600000)) 1 '0'
            ++ ':' :: (jsPadStart (natToChars (v.natAbs % 3600000 / 60000)) 2 '0'
            ++ ':' :: jsPadStart (natToChars (v.natAbs % 60000 / 1000)) 2 '0'))
          ++ '.' :: jsPadEnd (List.take 2 (natToChars (v.natAbs % 1000))) 2 '0') := by
  simp only [AssDialogue.toASSTSString]
  simp [List.append_assoc]

/-- The `H:MM:SS` body contains no dot. -/
lemma toASS_body_nodot (v : Int) :
    '.' ∉ jsPadStart (natToChars (v.natAbs / 3600000)) 1 '0'
      ++ ':' :: (jsPadStart (natToChars (v.natAbs % 3600000 / 60000)) 2 '0'
      ++ ':' :: jsPadStart (natToChars (v.natAbs % 60000 / 1000)) 2 '0') := by
  intro h
  have hdot : ('.' : Char) ∉ decDigits := by decide
  rcases List.mem_append.mp h with h1 | h1
  · exact hdot (pad_digits _ _ '.' h1)
  · rcases List.mem_cons.mp h1 with h2 | h2
    · cases h2
    · rcases List.mem_append.mp h2 with h3 | h3
      · exact hdot (pad_digits _ _ '.' h3)
      · rcases List.mem_cons.mp h3 with h4 | h4
        · cases h4
        · exact hdot (pad_digits _ _ '.' h4)

/-- Parsing a formatted timestamp always succeeds (its value is a
different matter, see claim C2). -/
lemma parseTSString_toASS_ok (v : Int) :
    ∃ j, AssDialogue.parseTSString (AssDialogue.toASSTSString v) = .ok j := by
  by_cases hs : AssDialogue.toASSTSString v = jstr "9:59:59.99"
  · refine ⟨.inf, ?_⟩
    unfold AssDialogue.parseTSString
    rw [if_pos hs]
  · have hsh := toASSTSString_shape v
    have hnodot := toASS_body_nodot v
    unfold AssDialogue.parseTSString
    rw [if_neg hs]
    by_cases hv : v < 0
    · rw [if_pos hv] at hsh
      have hstr : AssDialogue.toASSTSString v
          = '-' :: ((jsPadStart (natToChars (v.natAbs / 3600000)) 1 '0'
            ++ ':' :: (jsPadStart (natToChars (v.natAbs % 3600000 / 60000)) 2 '0'
            ++ ':' :: jsPadStart (natToChars (v.natAbs % 60000 / 1000)) 2 '0'))
          ++ '.' :: jsPadEnd (List.take 2 (natToChars (v.natAbs % 1000))) 2 '0') := by
        rw [hsh]
        rfl
      rw [hstr]
      obtain ⟨sec, hsec⟩ := jsSplit_two '.' _
        (jsPadEnd (List.take 2 (natToChars (v.natAbs % 1000))) 2 '0') hnodot
      simp only [List.head?_cons, List.drop_succ_cons, List.drop_zero]
      rw [if_pos (show (some '-' == some '-') = true from rfl)]
      rw [hsec]
      exact ⟨_, rfl⟩
    · rw [if_neg hv] at hsh
      rw [List.nil_append] at hsh
      have hhne : jsPadStart (natToChars (v.natAbs / 3600000)) 1 '0' ≠ [] :=
        jsPadStart_ne_nil (natToChars_ne_nil _)
      rcases hcase : jsPadStart (natToChars (v.natAbs / 3600000)) 1 '0'
        with _ | ⟨c0, hrest⟩
      · exact absurd hcase hhne
      · have hc0 : c0 ∈ decDigits :=
          pad_digits (v.natAbs / 3600000) 1 c0
            (by rw [hcase]; exact List.mem_cons_self c0 hrest)
        have hc0ne : c0 ≠ '-' := by
          intro hEq
          subst hEq
          exact absurd hc0 (by decide)
        have hhead : (AssDialogue.toASSTSString v).head? = some c0 := by
          rw [hsh, hcase]
          rfl
        have hneg : ((AssDialogue.toASSTSString v).head? == some '-') = false := by
          rw [hhead]
          simp [hc0ne]
        rw [hneg]
        simp only [Bool.false_eq_true, if_false]
        obtain ⟨sec, hsec⟩ := jsSplit_two '.' _
          (jsPadEnd (List.take 2 (natToChars (v.natAbs % 1000))) 2 '0') hnodot
        rw [show AssDialogue.toASSTSString v
            = (jsPadStart (natToChars (v.natAbs / 3600000)) 1 '0'
              ++ ':' :: (jsPadStart (natToChars (v.natAbs % 3600000 / 60000)) 2 '0'
              ++ ':' :: jsPadStart (natToChars (v.natAbs % 60000 / 1000)) 2 '0'))
            ++ '.' :: jsPadEnd (List.take 2 (natToChars (v.natAbs % 1000))) 2 '0'
          from hsh, hsec]
        exact ⟨_, rfl⟩

/-- Compute `mkFromAttribs` from the two lookups it inspects, for an
empty `End` field. -/
lemma mkFromAttribs_of_lookups (attribs : List (String × List Char))
    (s : List Char) (stv : JSNum)
    (hS : attribs.lookup "Start" = some s)
    (hok : AssDialogue.parseTSString s = .ok stv)
    (hE : attribs.lookup "End" = some []) :
    mkFromAttribs attribs = .ok ⟨attribs, stv, JSNum.inf⟩ := by
  unfold mkFromAttribs
  simp only [hS, hok, hE]
  rfl

/-- A successful construction keeps the split attributes, and an `End`
field that was absent or empty yields the open sentinel. -/
lemma mkFromAttribs_raw_end (attribs : List (String × List Char))
    (d' : AssDialogue) (h : mkFromAttribs attribs = .ok d') :
    d'.raw = attribs
    ∧ ((attribs.lookup "End" = none ∨ attribs.lookup "End" = some []) →
        d'.End = JSNum.inf) := by
  unfold mkFromAttribs at h
  split at h
  · exact absurd h (by simp)
  · split at h
    · exact absurd h (by simp)
    · split at h
      · injection h with h
        subst h
        exact ⟨rfl, fun _ => rfl⟩
      · rename_i en hen
        split at h
        · injection h with h
          subst h
          exact ⟨rfl, fun _ => rfl⟩
        · rename_i hneq
          split at h
          · exact absurd h (by simp)
          · injection h with h
            subst h
            refine ⟨rfl, fun hE => ?_⟩
            rcases hE with hE | hE
            · rw [hen] at hE
              cases hE
            · rw [hen] at hE
              injection hE with hE
              exact absurd hE hneq

/-- C10: open-endedness round-trips through segment-file serialization.
Serializing a record whose end is the open sentinel emits an empty `End`
field, and re-parsing the emitted line under the standard format gives a
record whose raw `End` field is the empty string and whose numeric end is
the open sentinel again; conversely, any construction from a line whose
extracted `End` field is empty or absent yields the open sentinel.  (The
non-`Text` fields are assumed comma-free as rendered — a record whose
fields contain commas would not serialize to a well-formed line at
all.) -/
theorem claim_C10_open_end_roundtrip :
    (∀ (d : AssDialogue) (v : Int) (txt : List Char),
      d.End = JSNum.inf →
      d.Start = JSNum.num v →
      d.raw.lookup "Text" = some txt →
      ',' ∉ orEmpty (d.raw.lookup "Layer") →
      ',' ∉ undefOr (d.raw.lookup "Style") →
      ',' ∉ undefOr (d.raw.lookup "Name") →
      ',' ∉ orEmpty (d.raw.lookup "MarginL") →
      ',' ∉ orEmpty (d.raw.lookup "MarginR") →
      ',' ∉ orEmpty (d.raw.lookup "MarginV") →
      ',' ∉ undefOr (d.raw.lookup "Effect") →
      ∃ line d', AssDialogue.toLine d = .ok line
        ∧ mkAssDialogue line stdFormat = .ok d'
        ∧ d'.raw.lookup "End" = some []
        ∧ d'.End = JSNum.inf)
    ∧ (∀ (str : List Char) (format : List String) (d' : AssDialogue),
        mkAssDialogue str format = .ok d' →
        (d'.raw.lookup "End" = none ∨ d'.raw.lookup "End" = some []) →
        d'.End = JSNum.inf) := by
  constructor
  · intro d v txt hEnd hStart hText h1 h2 h3 h4 h5 h6 h7
    obtain ⟨stv, hstv⟩ := parseTSString_toASS_ok v
    have hstv' : AssDialogue.parseTSString (AssDialogue.toASSTSStringJS d.Start)
        = .ok stv := by
      rw [hStart]
      exact hstv
    have hline : AssDialogue.toLine d
        = .ok (jstr "Dialogue: " ++ joinComma (dialogueChunks d txt)) := by
      unfold AssDialogue.toLine
      rw [hText, if_pos hEnd]
      simp [dialogueChunks, joinComma, List.append_assoc]
    have hcomma : ∀ c ∈ (dialogueChunks d txt).dropLast, ',' ∉ c := by
      intro c hc
      simp only [dialogueChunks, List.dropLast, List.mem_cons,
        List.not_mem_nil, or_false] at hc
      rcases hc with rfl | rfl | rfl | rfl | rfl | rfl | rfl | rfl | rfl
      · exact h1
      · rw [hStart]
        exact comma_not_mem_toASSTSString v
      · simp
      · exact h2
      · exact h3
      · exact h4
      · exact h5
      · exact h6
      · exact h7
    have hsplit : parseLoop (jstr "Dialogue: " ++ joinComma (dialogueChunks d txt))
        stdFormat ((jstr "Dialogue: " ++ joinComma (dialogueChunks d txt)).length + 1)
        0 9 []
        = ((stdFormat.drop 0).zip (dialogueChunks d txt)).reverse ++ [] := by
      refine parseLoop_spec (dialogueChunks d txt) stdFormat (jstr "Dialogue: ")
        0 9 _ [] (by rfl) (by simp [dialogueChunks]) (by rfl) hcomma ?_
      have h10 : (jstr "Dialogue: ").length = 10 := rfl
      simp only [List.length_append, dialogueChunks, List.length_cons,
        List.length_nil, h10]
      omega
    have hmk : mkAssDialogue (jstr "Dialogue: " ++ joinComma (dialogueChunks d txt))
        stdFormat
        = .ok ⟨((stdFormat.drop 0).zip (dialogueChunks d txt)).reverse ++ [],
            stv, JSNum.inf⟩ := by
      unfold mkAssDialogue
      rw [hsplit]
      exact mkFromAttribs_of_lookups _ _ stv (by rfl) hstv' (by rfl)
    exact ⟨_, _, hline, hmk, by rfl, rfl⟩
  · intro str format d' h hE
    have hx := mkFromAttribs_raw_end _ d' h
    exact hx.2 (by rw [← hx.1]; exact hE)

/-- Witness for C10 at a concrete open-ended record. -/
theorem claim_C10_open_end_roundtrip_witness :
    ∃ line d', AssDialogue.toLine dC10 = .ok line
      ∧ mkAssDialogue line stdFormat = .ok d'
      ∧ d'.raw.lookup "End" = some []
      ∧ d'.End = JSNum.inf :=
  claim_C10_open_end_roundtrip.1 dC10 61000 (jstr "hello") rfl rfl rfl
    (by decide) (by decide) (by decide) (by decide) (by decide) (by decide)
    (by decide)
